import Mathlib

/-!
Verification of the chunk-and-batch ingestion pipeline of `src/db_exp.py`
(repository wangdangel/icecrawl).

The driver and batcher are embedded from `src/db_exp.py` (`main`): fetch
`ForumPost` rows, build a `title + "\n\n" + content` document per row, chunk
it, tag each chunk with the row id, and upsert in batches of `BATCH`.

The chunker `vector_indexer.ingest.chunk_text` is not part of `src/`; it is
modelled from the specification (section 4.1): a sliding window of width
`chunk_size` advancing by `chunk_size - overlap`, which "produces the final
partial window (shorter than chunk_size) exactly once, then stops", with
invalid configurations rejected rather than clamped.
-/

set_option autoImplicit false
set_option maxRecDepth 8000

namespace IceCrawl

/-- Error taxonomy of the spec (section 7); only the configuration error is
reachable inside the embedded fragment. -/
inductive IngestError where
  | configurationError
deriving DecidableEq

/-- Modelled from the spec: the window-emitting loop of
`vector_indexer.ingest.chunk_text` (absent from `src/`).  `size` is the
window width, `k + 1` is the step (`chunk_size - overlap`).  The first
argument is fuel, instantiated with the text length so that the recursion is
structural; each window spans `[pos, pos + size)` clipped to the text, and
the final partial window (one that reaches the text end) is produced exactly
once, then the loop stops. -/
def slideGo (size k : Nat) : Nat → List Char → List (List Char)
  | 0, _ => []
  | _ + 1, [] => []
  | fuel + 1, c :: rest =>
    if (c :: rest).length ≤ size then [c :: rest]
    else (c :: rest).take size :: slideGo size k fuel (rest.drop k)

/-- The chunk sequence of a text: the sliding-window loop run with enough
fuel (the text length) to reach the end of the text. -/
def slideChunks (size k : Nat) (s : List Char) : List (List Char) :=
  slideGo size k s.length s

/-- Modelled from the spec: `vector_indexer.ingest.chunk_text` (absent from
`src/`).  Contract (spec section 4.1): `chunk_size > 0`,
`0 ≤ overlap < chunk_size`; anything else is an invalid-configuration error,
never silently clamped.  On a valid configuration it returns the sliding
windows with step `chunk_size - overlap`. -/
def chunk_text (text : List Char) (chunk_size overlap : Int) :
    Except IngestError (List (List Char)) :=
  if 0 < chunk_size ∧ 0 ≤ overlap ∧ overlap < chunk_size then
    Except.ok (slideChunks chunk_size.toNat (chunk_size.toNat - overlap.toNat - 1) text)
  else
    Except.error IngestError.configurationError

/-- Configuration surface of the run (spec section 6): the module constants
`CHUNK_SZ`, `OVERLAP`, `BATCH`, `COL_NAME` of `src/db_exp.py`. -/
structure Config where
  chunk_size : Int
  overlap : Int
  batch : Int
  collection : String
deriving DecidableEq

/-- The constants of `src/db_exp.py`: `CHUNK_SZ = 500`, `OVERLAP = 50`,
`BATCH = 100`, `COL_NAME = "windsurf"`. -/
def defaultConfig : Config := ⟨500, 50, 100, "windsurf"⟩

/-- One `ForumPost` row as fetched by
`SELECT id, title, content FROM ForumPost`: `title` may be SQL `NULL`. -/
structure ForumRow where
  id : Int
  title : Option (List Char)
  content : List Char
deriving DecidableEq

/-- The visible state of the SQLite database: the table names listed in
`sqlite_master` and the `ForumPost` rows. -/
structure Database where
  tables : List String
  forumPosts : List ForumRow
deriving DecidableEq

/-- One element of an `add_documents` payload:
`{"id": post_id, "text": chunk}`. -/
structure ChunkDoc where
  id : Int
  text : List Char
deriving DecidableEq

/-- The batcher state inlined in `main`: the list of `add_documents` calls
already made (in call order) and the in-flight `buffer`. -/
structure BatcherState where
  calls : List (List ChunkDoc)
  buffer : List ChunkDoc
deriving DecidableEq

/-- The loop body of `main` for one chunk: `buffer.append(...)`, and when
`len(buffer) >= BATCH`, `indexer.add_documents(buffer, ...)` followed by
`buffer.clear()`. -/
def addDoc (batch : Int) (st : BatcherState) (c : ChunkDoc) : BatcherState :=
  let buf := st.buffer ++ [c]
  if batch ≤ (buf.length : Int) then ⟨st.calls ++ [buf], []⟩ else ⟨st.calls, buf⟩

/-- Step 4 of `main`: `if buffer: indexer.add_documents(buffer, ...)` —
flush the remainder, a no-op on an empty buffer. -/
def finalFlush (st : BatcherState) : List (List ChunkDoc) :=
  match st.buffer with
  | [] => st.calls
  | _ :: _ => st.calls ++ [st.buffer]

/-- The batcher run on one stream of chunk documents: accumulate through
`addDoc` starting from an empty buffer, then flush the remainder.  This is
exactly the accumulate-then-flush mechanism of `main` (spec section 4.2),
applied to a single stream. -/
def runBatcher (batch : Int) (docs : List ChunkDoc) : List (List ChunkDoc) :=
  finalFlush (docs.foldl (addDoc batch) ⟨[], []⟩)

/-- `f"{title or ''}\n\n{content}"` of `src/db_exp.py`: the per-row document
string. -/
def buildDocument (title : Option (List Char)) (content : List Char) : List Char :=
  title.getD [] ++ '\n' :: '\n' :: content

/-- Driver loop state: the batcher state plus the `total_chunks` counter and
the number of `chunk_text` invocations made so far. -/
structure IngestState where
  batcher : BatcherState
  total_chunks : Nat
  chunk_calls : Nat
deriving DecidableEq

/-- The `for post_id, title, content in rows` loop of `main`: per row, build
the document, chunk it, tag every chunk with the row id and feed it to the
batcher.  A chunker error aborts the loop at once (the Python exception
propagates), leaving the calls already made. -/
def processRows (cfg : Config) : List ForumRow → IngestState → IngestState × Option IngestError
  | [], st => (st, none)
  | r :: rs, st =>
    match chunk_text (buildDocument r.title r.content) cfg.chunk_size cfg.overlap with
    | Except.error e => (⟨st.batcher, st.total_chunks, st.chunk_calls + 1⟩, some e)
    | Except.ok chunks =>
      processRows cfg rs
        ⟨chunks.foldl (fun b ch => addDoc cfg.batch b ⟨r.id, ch⟩) st.batcher,
         st.total_chunks + chunks.length,
         st.chunk_calls + 1⟩

/-- Observable outcome of one run of `main`: the error reported (if any),
the `add_documents` calls in order, the number of rows fetched, the
`total_chunks` counter, whether an `IndexerClient` was constructed, and how
many times `chunk_text` was invoked. -/
structure RunResult where
  error : Option IngestError
  upserts : List (List ChunkDoc)
  row_count : Nat
  chunk_count : Nat
  indexerCreated : Bool
  chunk_calls : Nat
deriving DecidableEq

/-- Packaging of the loop outcome: on an error the Python exception
propagates out of `main` (only the already-made calls stand, no final
flush); otherwise step 4 of `main` flushes the remainder. -/
def finishRun (rows : List ForumRow) (res : IngestState × Option IngestError) : RunResult :=
  match res.2 with
  | some e =>
    ⟨some e, res.1.batcher.calls, rows.length, res.1.total_chunks, true, res.1.chunk_calls⟩
  | none =>
    ⟨none, finalFlush res.1.batcher, rows.length, res.1.total_chunks, true, res.1.chunk_calls⟩

/-- `main` of `src/db_exp.py`: check that the `ForumPost` table exists
(otherwise report a configuration error and stop), fetch the rows (stop if
there are none, before constructing the index client), then chunk and
batch-upsert, flushing the remainder at end of stream. -/
def main (cfg : Config) (db : Database) : RunResult :=
  if "ForumPost" ∈ db.tables then
    match db.forumPosts with
    | [] => ⟨none, [], 0, 0, false, 0⟩
    | r :: rs => finishRun (r :: rs) (processRows cfg (r :: rs) ⟨⟨[], []⟩, 0, 0⟩)
  else
    ⟨some IngestError.configurationError, [], 0, 0, false, 0⟩

instance {ε α : Type} [DecidableEq ε] [DecidableEq α] : DecidableEq (Except ε α)
  | Except.error e, Except.error f =>
    if h : e = f then isTrue (congrArg Except.error h)
    else isFalse (fun hh => h (Except.error.inj hh))
  | Except.error _, Except.ok _ => isFalse (fun hh => Except.noConfusion hh)
  | Except.ok _, Except.error _ => isFalse (fun hh => Except.noConfusion hh)
  | Except.ok x, Except.ok y =>
    if h : x = y then isTrue (congrArg Except.ok h)
    else isFalse (fun hh => h (Except.ok.inj hh))

lemma slideGo_nil (size k f : Nat) : slideGo size k f [] = [] := by
  cases f <;> rfl

lemma slideGo_fuel (size k : Nat) :
    ∀ f (s : List Char), s.length ≤ f →
      slideGo size k f s = slideGo size k s.length s := by
  intro f
  induction f using Nat.strong_induction_on with
  | _ f ih =>
    intro s hs
    cases s with
    | nil => cases f <;> rfl
    | cons c rest =>
      cases f with
      | zero => simp at hs
      | succ m =>
        have hrest : rest.length ≤ m := by
          simpa using hs
        show slideGo size k (m + 1) (c :: rest)
            = slideGo size k (rest.length + 1) (c :: rest)
        simp only [slideGo]
        by_cases hc : rest.length + 1 ≤ size
        · simp [hc]
        · simp only [List.length_cons, if_neg hc]
          have hdl : (rest.drop k).length = rest.length - k := by simp
          rw [ih m (by omega) (rest.drop k) (by omega),
            ih rest.length (by omega) (rest.drop k) (by omega)]

lemma slideChunks_nil (size k : Nat) : slideChunks size k [] = [] := rfl

lemma slideChunks_short (size k : Nat) (s : List Char) (hne : s ≠ [])
    (hle : s.length ≤ size) : slideChunks size k s = [s] := by
  cases s with
  | nil => exact absurd rfl hne
  | cons c rest =>
    have hc : rest.length + 1 ≤ size := by simpa using hle
    show slideGo size k ((c :: rest).length) (c :: rest) = [c :: rest]
    simp only [List.length_cons, slideGo, if_pos hc]

lemma slideChunks_long (size k : Nat) (s : List Char) (hgt : size < s.length) :
    slideChunks size k s = s.take size :: slideChunks size k (s.drop (k + 1)) := by
  cases s with
  | nil => simp at hgt
  | cons c rest =>
    have hc : ¬ (rest.length + 1 ≤ size) := by
      have : size < rest.length + 1 := by simpa using hgt
      omega
    show slideGo size k ((c :: rest).length) (c :: rest) = _
    simp only [List.length_cons, slideGo, if_neg hc]
    rw [List.drop_succ_cons]
    rw [slideGo_fuel size k rest.length (rest.drop k) (by simp)]
    rfl

/-- Chunk count of the sliding window at the configuration of the run
(`chunk_size = 500`, `overlap = 50`, step `450`), stated with an explicit
fuel bound for the induction. -/
lemma slideChunks_count_aux :
    ∀ n (s : List Char), s.length ≤ n → s ≠ [] →
      (slideChunks 500 449 s).length = (max (s.length - 50) 1 + 449) / 450 := by
  intro n
  induction n with
  | zero =>
    intro s hl hne
    cases s with
    | nil => exact absurd rfl hne
    | cons c rest => simp at hl
  | succ n ih =>
    intro s hl hne
    rcases le_or_lt s.length 500 with h500 | h500
    · rw [slideChunks_short 500 449 s hne h500]
      have h1 : 1 ≤ s.length := List.length_pos.mpr hne
      simp only [List.length_singleton]
      omega
    · rw [slideChunks_long 500 449 s h500, show (449 : Nat) + 1 = 450 from rfl]
      have hdl : (s.drop 450).length = s.length - 450 := by simp
      have hne2 : s.drop 450 ≠ [] := by
        intro h
        have := congrArg List.length h
        simp only [hdl, List.length_nil] at this
        omega
      rw [List.length_cons, ih (s.drop 450) (by omega) hne2, hdl]
      omega

lemma slideChunks_count (s : List Char) (hne : s ≠ []) :
    (slideChunks 500 449 s).length = (max (s.length - 50) 1 + 449) / 450 :=
  slideChunks_count_aux s.length s le_rfl hne

/-- Dropping the leading overlap from every window and concatenating gives
the original text minus its first `overlap` characters. -/
lemma slideChunks_dropJoin_aux :
    ∀ n (s : List Char), s.length ≤ n →
      ((slideChunks 500 449 s).map (List.drop 50)).flatten = s.drop 50 := by
  intro n
  induction n with
  | zero =>
    intro s hl
    have : s = [] := List.length_eq_zero.mp (by omega)
    subst this
    simp [slideChunks_nil]
  | succ n ih =>
    intro s hl
    rcases eq_or_ne s [] with hne | hne
    · subst hne; simp [slideChunks_nil]
    rcases le_or_lt s.length 500 with h500 | h500
    · rw [slideChunks_short 500 449 s hne h500]
      simp
    · rw [slideChunks_long 500 449 s h500, show (449 : Nat) + 1 = 450 from rfl]
      have hdl : (s.drop 450).length = s.length - 450 := by simp
      rw [List.map_cons, List.flatten_cons, ih (s.drop 450) (by omega)]
      rw [List.drop_take, List.drop_drop]
      rw [show (450 : Nat) + 50 = 500 from rfl, show (500 : Nat) - 50 = 450 from rfl]
      rw [show List.drop 500 s = List.drop 450 (List.drop 50 s) from by
        rw [List.drop_drop]]
      rw [List.take_append_drop]

lemma slideChunks_dropJoin (s : List Char) :
    ((slideChunks 500 449 s).map (List.drop 50)).flatten = s.drop 50 :=
  slideChunks_dropJoin_aux s.length s le_rfl

/-- Reconstruction: the first window, followed by every later window with
its leading overlap removed, concatenates back to the original text. -/
lemma slideChunks_reconstruct (s : List Char) (hne : s ≠ []) :
    (slideChunks 500 449 s).headD []
      ++ (((slideChunks 500 449 s).tail).map (List.drop 50)).flatten = s := by
  rcases le_or_lt s.length 500 with h500 | h500
  · rw [slideChunks_short 500 449 s hne h500]
    simp
  · rw [slideChunks_long 500 449 s h500, show (449 : Nat) + 1 = 450 from rfl]
    simp only [List.headD_cons, List.tail_cons]
    rw [slideChunks_dropJoin (s.drop 450), List.drop_drop]
    rw [show (450 : Nat) + 50 = 500 from rfl, List.take_append_drop]

lemma addDoc_eq (b : Int) (calls : List (List ChunkDoc)) (buf : List ChunkDoc)
    (c : ChunkDoc) :
    addDoc b ⟨calls, buf⟩ c
      = if b ≤ ((buf ++ [c]).length : Int) then ⟨calls ++ [buf ++ [c]], []⟩
        else ⟨calls, buf ++ [c]⟩ := rfl

/-- Folding chunks through the batcher loses nothing and reorders nothing:
calls so far plus the in-flight buffer always hold exactly the stream seen
so far. -/
lemma foldl_addDoc_flatten (b : Int) :
    ∀ (docs : List ChunkDoc) (calls : List (List ChunkDoc)) (buf : List ChunkDoc),
      (docs.foldl (addDoc b) ⟨calls, buf⟩).calls.flatten
          ++ (docs.foldl (addDoc b) ⟨calls, buf⟩).buffer
        = calls.flatten ++ buf ++ docs := by
  intro docs
  induction docs with
  | nil => intro calls buf; simp
  | cons c ds ih =>
    intro calls buf
    rw [List.foldl_cons, addDoc_eq]
    by_cases h : b ≤ ((buf ++ [c]).length : Int)
    · rw [if_pos h, ih]
      simp
    · rw [if_neg h, ih]
      simp

lemma finalFlush_flatten (st : BatcherState) :
    (finalFlush st).flatten = st.calls.flatten ++ st.buffer := by
  rcases st with ⟨calls, buffer⟩
  cases buffer <;> simp [finalFlush]

/-- The concatenation of the batches, in call order, is the input stream. -/
lemma runBatcher_flatten (b : Int) (docs : List ChunkDoc) :
    (runBatcher b docs).flatten = docs := by
  unfold runBatcher
  rw [finalFlush_flatten]
  have := foldl_addDoc_flatten b docs [] []
  simpa using this

/-- Batch sizes under the batcher fold: every flush carries exactly `m`
chunks and the remainder buffer carries the rest, for a positive batch
size `m`. -/
lemma foldl_addDoc_sizes (m : Nat) (hm : 0 < m) :
    ∀ (docs : List ChunkDoc) (calls : List (List ChunkDoc)) (buf : List ChunkDoc),
      buf.length < m →
      ((docs.foldl (addDoc (m : Int)) ⟨calls, buf⟩).calls.map List.length
          = calls.map List.length ++ List.replicate ((buf.length + docs.length) / m) m)
        ∧ (docs.foldl (addDoc (m : Int)) ⟨calls, buf⟩).buffer.length
            = (buf.length + docs.length) % m := by
  intro docs
  induction docs with
  | nil =>
    intro calls buf hb
    constructor
    · simp [Nat.div_eq_of_lt hb]
    · simp [Nat.mod_eq_of_lt hb]
  | cons c ds ih =>
    intro calls buf hb
    rw [List.foldl_cons, addDoc_eq]
    by_cases h : (m : Int) ≤ ((buf ++ [c]).length : Int)
    · rw [if_pos h]
      have hlen : buf.length + 1 = m := by
        have hc : ((buf ++ [c]).length : Int) = ((buf.length : Int)) + 1 := by
          simp
        rw [hc] at h
        omega
      rcases ih (calls ++ [buf ++ [c]]) [] (by simp only [List.length_nil]; omega)
        with ⟨h1, h2⟩
      constructor
      · rw [h1]
        have harith : buf.length + (c :: ds).length = ds.length + m := by
          simp [List.length_cons]
          omega
        rw [harith, Nat.add_div_right _ hm, List.replicate_succ]
        simp [List.length_append, hlen]
      · rw [h2]
        have harith : buf.length + (c :: ds).length = ds.length + m := by
          simp [List.length_cons]
          omega
        rw [harith, Nat.add_mod_right]
        simp
    · rw [if_neg h]
      have hlt : (buf ++ [c]).length < m := by
        have hc : ((buf ++ [c]).length : Int) = ((buf.length : Int)) + 1 := by
          simp
        simp only [List.length_append, List.length_singleton]
        omega
      rcases ih calls (buf ++ [c]) hlt with ⟨h1, h2⟩
      have harith : (buf ++ [c]).length + ds.length = buf.length + (c :: ds).length := by
        simp [List.length_cons]
        omega
      rw [h1, h2, harith]
      exact ⟨rfl, rfl⟩

/-- Invariant of the in-flight batcher state: every call already made has
between 1 and `b` chunks, and the buffer stays strictly below `b`. -/
def BatchInv (b : Int) (st : BatcherState) : Prop :=
  (∀ x ∈ st.calls, 1 ≤ x.length ∧ (x.length : Int) ≤ b) ∧ (st.buffer.length : Int) < b

lemma addDoc_inv (b : Int) (st : BatcherState) (c : ChunkDoc)
    (h : BatchInv b st) : BatchInv b (addDoc b st c) := by
  rcases st with ⟨calls, buf⟩
  rcases h with ⟨h1, h2⟩
  dsimp only at h1 h2
  have hfl : (buf ++ [c]).length = buf.length + 1 := by simp
  rw [addDoc_eq]
  by_cases hc : b ≤ ((buf ++ [c]).length : Int)
  · rw [hfl] at hc
    rw [if_pos (by rw [hfl]; exact hc)]
    refine ⟨?_, ?_⟩
    · intro x hx
      dsimp only at hx
      rcases List.mem_append.mp hx with hx | hx
      · exact h1 x hx
      · have hx' : x = buf ++ [c] := by simpa using hx
        subst hx'
        refine ⟨by simp, ?_⟩
        rw [hfl]
        push_cast at h2 hc ⊢
        omega
    · show ((([] : List ChunkDoc).length : Nat) : Int) < b
      simp only [List.length_nil, Int.natCast_zero]
      omega
  · rw [hfl] at hc
    rw [if_neg (by rw [hfl]; exact hc)]
    refine ⟨h1, ?_⟩
    show (((buf ++ [c]).length : Nat) : Int) < b
    rw [hfl]
    push_cast at hc ⊢
    omega

lemma foldl_tag_inv (b : Int) (i : Int) :
    ∀ (chs : List (List Char)) (st : BatcherState), BatchInv b st →
      BatchInv b (chs.foldl (fun bs ch => addDoc b bs ⟨i, ch⟩) st) := by
  intro chs
  induction chs with
  | nil => intro st h; exact h
  | cons ch rest ih =>
    intro st h
    exact ih _ (addDoc_inv b st ⟨i, ch⟩ h)

lemma processRows_inv (cfg : Config) :
    ∀ (rows : List ForumRow) (st : IngestState), BatchInv cfg.batch st.batcher →
      BatchInv cfg.batch (processRows cfg rows st).1.batcher := by
  intro rows
  induction rows with
  | nil => intro st h; exact h
  | cons r rs ih =>
    intro st h
    show BatchInv cfg.batch (processRows cfg (r :: rs) st).1.batcher
    unfold processRows
    cases chunk_text (buildDocument r.title r.content) cfg.chunk_size cfg.overlap with
    | error e => exact h
    | ok chunks => exact ih _ (foldl_tag_inv cfg.batch r.id chunks st.batcher h)

lemma finalFlush_inv (b : Int) (st : BatcherState) (h : BatchInv b st) :
    ∀ x ∈ finalFlush st, 1 ≤ x.length ∧ (x.length : Int) ≤ b := by
  rcases st with ⟨calls, buffer⟩
  rcases h with ⟨h1, h2⟩
  cases buffer with
  | nil => exact h1
  | cons d ds =>
    intro x hx
    simp only [finalFlush] at hx
    rcases List.mem_append.mp hx with hx | hx
    · exact h1 x hx
    · have hx' : x = d :: ds := by simpa using hx
      subst hx'
      exact ⟨by simp, le_of_lt h2⟩

lemma finalFlush_sizes (st : BatcherState) (hne : st.buffer ≠ []) :
    (finalFlush st).map List.length
      = st.calls.map List.length ++ [st.buffer.length] := by
  rcases st with ⟨calls, buffer⟩
  cases buffer with
  | nil => exact absurd rfl hne
  | cons d ds => simp [finalFlush]

lemma main_no_table (cfg : Config) (db : Database) (h : "ForumPost" ∉ db.tables) :
    main cfg db = ⟨some IngestError.configurationError, [], 0, 0, false, 0⟩ := by
  unfold main
  rw [if_neg h]

lemma main_no_rows (cfg : Config) (db : Database) (ht : "ForumPost" ∈ db.tables)
    (hr : db.forumPosts = []) : main cfg db = ⟨none, [], 0, 0, false, 0⟩ := by
  unfold main
  rw [if_pos ht, hr]

lemma main_cons (cfg : Config) (db : Database) (r : ForumRow) (rs : List ForumRow)
    (ht : "ForumPost" ∈ db.tables) (hr : db.forumPosts = r :: rs) :
    main cfg db = finishRun (r :: rs) (processRows cfg (r :: rs) ⟨⟨[], []⟩, 0, 0⟩) := by
  unfold main
  rw [if_pos ht, hr]

/-- Claim C2: if the `ForumPost` table is absent from the row source, the
run reports a ConfigurationError and performs no ingestion: zero rows
fetched, zero chunks, zero upsert calls, no index client, and the summary
counts are `row_count = 0`, `chunk_count = 0`. -/
theorem missing_schema_no_ingestion (cfg : Config) (db : Database)
    (h : "ForumPost" ∉ db.tables) :
    main cfg db = ⟨some IngestError.configurationError, [], 0, 0, false, 0⟩ :=
  main_no_table cfg db h

/-- Claim C2 witness: a database whose only table is `Other`. -/
theorem missing_schema_no_ingestion_witness :
    ("ForumPost" ∉ (["Other"] : List String))
      ∧ main defaultConfig ⟨["Other"], [⟨1, none, ['a']⟩]⟩
          = ⟨some IngestError.configurationError, [], 0, 0, false, 0⟩ :=
  ⟨by decide, missing_schema_no_ingestion defaultConfig ⟨["Other"], [⟨1, none, ['a']⟩]⟩
    (by decide)⟩

/-- Claim C10: if the schema is present but the fetch yields zero rows, the
run stops right after the fetch: no index client is constructed, no upsert
call is made, and `chunk_text` is never invoked. -/
theorem empty_fetch_stops_run (cfg : Config) (db : Database)
    (ht : "ForumPost" ∈ db.tables) (hr : db.forumPosts = []) :
    main cfg db = ⟨none, [], 0, 0, false, 0⟩ :=
  main_no_rows cfg db ht hr

/-- Claim C10 witness: a database with the `ForumPost` table and no rows. -/
theorem empty_fetch_stops_run_witness :
    ("ForumPost" ∈ (["ForumPost"] : List String))
      ∧ main defaultConfig ⟨["ForumPost"], []⟩ = ⟨none, [], 0, 0, false, 0⟩ :=
  ⟨by decide, empty_fetch_stops_run defaultConfig ⟨["ForumPost"], []⟩ (by decide) rfl⟩

/-- Claim C9: ingestion is deterministic — two runs with the same
configuration over databases carrying identical `ForumPost` rows (and
agreeing on whether the `ForumPost` table exists) produce identical
results: the same chunk stream, the same upsert call sequence, the same
counts. -/
theorem ingestion_deterministic (cfg : Config) (db1 db2 : Database)
    (hrows : db1.forumPosts = db2.forumPosts)
    (htab : ("ForumPost" ∈ db1.tables) ↔ ("ForumPost" ∈ db2.tables)) :
    main cfg db1 = main cfg db2 := by
  unfold main
  by_cases h : "ForumPost" ∈ db1.tables
  · rw [if_pos h, if_pos (htab.mp h), hrows]
  · rw [if_neg h, if_neg (fun hh => h (htab.mpr hh))]

/-- Claim C9 witness: the same rows behind differently-populated
`sqlite_master` listings give the same run result. -/
theorem ingestion_deterministic_witness :
    ((⟨["ForumPost"], [⟨1, none, ['a']⟩]⟩ : Database).forumPosts
        = (⟨["Other", "ForumPost"], [⟨1, none, ['a']⟩]⟩ : Database).forumPosts)
      ∧ main defaultConfig ⟨["ForumPost"], [⟨1, none, ['a']⟩]⟩
          = main defaultConfig ⟨["Other", "ForumPost"], [⟨1, none, ['a']⟩]⟩ :=
  ⟨rfl, ingestion_deterministic defaultConfig _ _ rfl (by decide)⟩

/-- Claim C4: for every configuration with `chunk_size ≤ 0` or
`overlap ≥ chunk_size`, chunking fails fast with the invalid-configuration
error on every text (never silently clamping), and a run under that
configuration makes no upsert call and counts zero chunks. -/
theorem invalid_config_fails_fast (cfg : Config) (db : Database)
    (hinv : cfg.chunk_size ≤ 0 ∨ cfg.overlap ≥ cfg.chunk_size) :
    (∀ text : List Char,
        chunk_text text cfg.chunk_size cfg.overlap
          = Except.error IngestError.configurationError)
      ∧ (main cfg db).upserts = [] ∧ (main cfg db).chunk_count = 0 := by
  have hct : ∀ text : List Char,
      chunk_text text cfg.chunk_size cfg.overlap
        = Except.error IngestError.configurationError := by
    intro text
    unfold chunk_text
    rw [if_neg]
    rintro ⟨h1, h2, h3⟩
    omega
  refine ⟨hct, ?_⟩
  by_cases ht : "ForumPost" ∈ db.tables
  · cases hrows : db.forumPosts with
    | nil => rw [main_no_rows cfg db ht hrows]; exact ⟨rfl, rfl⟩
    | cons r rs =>
      rw [main_cons cfg db r rs ht hrows]
      have hpr : processRows cfg (r :: rs) ⟨⟨[], []⟩, 0, 0⟩
          = (⟨⟨[], []⟩, 0, 1⟩, some IngestError.configurationError) := by
        unfold processRows
        rw [hct (buildDocument r.title r.content)]
      rw [hpr]
      exact ⟨rfl, rfl⟩
  · rw [main_no_table cfg db ht]; exact ⟨rfl, rfl⟩

/-- Claim C4 witness: `overlap = chunk_size = 500` is rejected and the run
upserts nothing. -/
theorem invalid_config_fails_fast_witness :
    ((⟨500, 500, 100, "windsurf"⟩ : Config).chunk_size ≤ 0
        ∨ (⟨500, 500, 100, "windsurf"⟩ : Config).overlap
            ≥ (⟨500, 500, 100, "windsurf"⟩ : Config).chunk_size)
      ∧ chunk_text ['a'] 500 500 = Except.error IngestError.configurationError
      ∧ (main ⟨500, 500, 100, "windsurf"⟩ ⟨["ForumPost"], [⟨1, none, ['a']⟩]⟩).upserts
          = [] := by
  have h := invalid_config_fails_fast ⟨500, 500, 100, "windsurf"⟩
    ⟨["ForumPost"], [⟨1, none, ['a']⟩]⟩ (Or.inr (by decide))
  exact ⟨Or.inr (by decide), h.1 ['a'], h.2.1⟩

/-- Claim C6: for every non-empty text strictly shorter than `chunk_size`
(under a valid configuration), chunking produces exactly one chunk, equal
to the whole input text. -/
theorem short_text_single_chunk (s : List Char) (size ov : Int) (hne : s ≠ [])
    (h0 : 0 < size) (hov0 : 0 ≤ ov) (hov : ov < size)
    (hlen : (s.length : Int) < size) :
    chunk_text s size ov = Except.ok [s] := by
  unfold chunk_text
  rw [if_pos ⟨h0, hov0, hov⟩]
  rw [slideChunks_short size.toNat (size.toNat - ov.toNat - 1) s hne (by omega)]

/-- Claim C6 witness: a one-character text under the default
configuration. -/
theorem short_text_single_chunk_witness :
    (['a'] : List Char) ≠ [] ∧ ((['a'] : List Char).length : Int) < 500
      ∧ chunk_text ['a'] 500 50 = Except.ok [['a']] :=
  ⟨by decide, by decide,
    short_text_single_chunk ['a'] 500 50 (by decide) (by decide) (by decide)
      (by decide) (by decide)⟩

/-- Claim C5: for every non-empty text, chunking with `chunk_size = 500`,
`overlap = 50` succeeds, yields
`ceil(max(len - 50, 1) / 450)` chunks, and removing the leading 50-character
overlap from every chunk after the first and concatenating reconstructs the
original text. -/
theorem chunk_count_and_reconstruction (s : List Char) (hne : s ≠ []) :
    chunk_text s 500 50 = Except.ok (slideChunks 500 449 s)
      ∧ (slideChunks 500 449 s).length = (max (s.length - 50) 1 + 449) / 450
      ∧ (slideChunks 500 449 s).headD []
          ++ (((slideChunks 500 449 s).tail).map (List.drop 50)).flatten = s := by
  refine ⟨?_, slideChunks_count s hne, slideChunks_reconstruct s hne⟩
  unfold chunk_text
  rw [if_pos (by decide : (0 : Int) < 500 ∧ (0 : Int) ≤ 50 ∧ (50 : Int) < 500)]
  rfl

/-- Claim C5 witness: the one-character text. -/
theorem chunk_count_and_reconstruction_witness :
    chunk_text ['a'] 500 50 = Except.ok (slideChunks 500 449 ['a'])
      ∧ (slideChunks 500 449 ['a']).length
          = (max ((['a'] : List Char).length - 50) 1 + 449) / 450
      ∧ (slideChunks 500 449 ['a']).headD []
          ++ (((slideChunks 500 449 ['a']).tail).map (List.drop 50)).flatten
        = ['a'] :=
  chunk_count_and_reconstruction ['a'] (by decide)

/-- Claim C3: an input stream of exactly 250 chunks under `batch_size = 100`
yields exactly 3 upsert calls, of sizes `[100, 100, 50]` in that order, and
the concatenation of the batches in call order is the chunk stream in
production order. -/
theorem batching_250_chunks (docs : List ChunkDoc) (h : docs.length = 250) :
    (runBatcher 100 docs).length = 3
      ∧ (runBatcher 100 docs).map List.length = [100, 100, 50]
      ∧ (runBatcher 100 docs).flatten = docs := by
  have hcast : ((100 : Nat) : Int) = (100 : Int) := rfl
  have hsz := foldl_addDoc_sizes 100 (by omega) docs [] []
    (by simp only [List.length_nil]; omega)
  rw [hcast] at hsz
  rcases hsz with ⟨h1, h2⟩
  simp only [List.length_nil, List.map_nil, List.nil_append, Nat.zero_add, h] at h1 h2
  norm_num at h1 h2
  rw [show List.replicate 2 (100 : Nat) = [100, 100] from rfl] at h1
  have hbufne : (docs.foldl (addDoc 100) ⟨[], []⟩).buffer ≠ [] := by
    intro hh
    rw [hh] at h2
    simp at h2
  have hmap : (runBatcher 100 docs).map List.length = [100, 100, 50] := by
    unfold runBatcher
    rw [finalFlush_sizes _ hbufne, h1, h2]
    rfl
  refine ⟨?_, hmap, runBatcher_flatten 100 docs⟩
  have hlen := congrArg List.length hmap
  rw [List.length_map] at hlen
  simpa using hlen

/-- Claim C3 witness: a concrete stream of 250 chunk documents. -/
theorem batching_250_chunks_witness :
    (runBatcher 100 (List.replicate 250 (⟨0, ['x']⟩ : ChunkDoc))).length = 3
      ∧ (runBatcher 100 (List.replicate 250 (⟨0, ['x']⟩ : ChunkDoc))).map List.length
          = [100, 100, 50]
      ∧ (runBatcher 100 (List.replicate 250 (⟨0, ['x']⟩ : ChunkDoc))).flatten
          = List.replicate 250 (⟨0, ['x']⟩ : ChunkDoc) :=
  batching_250_chunks (List.replicate 250 ⟨0, ['x']⟩) (by simp)

/-- Claim C7: in every run with a positive configured batch size, every
upsert call carries at least 1 and at most `batch` chunks; in particular
the end-of-stream flush never emits an empty call. -/
theorem upsert_calls_bounded (cfg : Config) (db : Database) (hb : 1 ≤ cfg.batch) :
    ∀ call ∈ (main cfg db).upserts, 1 ≤ call.length ∧ (call.length : Int) ≤ cfg.batch := by
  intro call hc
  by_cases ht : "ForumPost" ∈ db.tables
  · cases hrows : db.forumPosts with
    | nil =>
      rw [main_no_rows cfg db ht hrows] at hc
      simp at hc
    | cons r rs =>
      rw [main_cons cfg db r rs ht hrows] at hc
      have hinv0 : BatchInv cfg.batch (⟨⟨[], []⟩, 0, 0⟩ : IngestState).batcher := by
        refine ⟨?_, ?_⟩
        · intro x hx
          simp at hx
        · show ((([] : List ChunkDoc).length : Nat) : Int) < cfg.batch
          simp only [List.length_nil, Int.natCast_zero]
          omega
      have hinv := processRows_inv cfg (r :: rs) ⟨⟨[], []⟩, 0, 0⟩ hinv0
      unfold finishRun at hc
      cases hres : (processRows cfg (r :: rs) ⟨⟨[], []⟩, 0, 0⟩).2 with
      | some e =>
        rw [hres] at hc
        dsimp only at hc
        exact hinv.1 call hc
      | none =>
        rw [hres] at hc
        dsimp only at hc
        exact finalFlush_inv cfg.batch _ hinv call hc
  · rw [main_no_table cfg db ht] at hc
    simp at hc

/-- Claim C7 witness: the single call of a small end-to-end run has
between 1 and 100 chunks. -/
theorem upsert_calls_bounded_witness :
    1 ≤ ([(⟨1, ['H', 'i', '\n', '\n', 'A', 'B']⟩ : ChunkDoc)]).length
      ∧ (([(⟨1, ['H', 'i', '\n', '\n', 'A', 'B']⟩ : ChunkDoc)]).length : Int)
          ≤ defaultConfig.batch :=
  upsert_calls_bounded defaultConfig
    ⟨["ForumPost"], [⟨1, some ['H', 'i'], ['A', 'B']⟩]⟩ (by decide)
    [⟨1, ['H', 'i', '\n', '\n', 'A', 'B']⟩] (by decide)

/-- Claim C1 counterexample: a row with absent title and empty content
still contributes one chunk — the driver builds the document
`title + "\n\n" + content = "\n\n"`, which is non-empty, so the chunk count
is 1 and one upsert call carrying the `"\n\n"` chunk is made. -/
theorem empty_row_zero_chunks_counterexample :
    (main defaultConfig ⟨["ForumPost"], [⟨1, none, []⟩]⟩).chunk_count ≠ 0
      ∧ (main defaultConfig ⟨["ForumPost"], [⟨1, none, []⟩]⟩).upserts
          = [[⟨1, ['\n', '\n']⟩]] := by decide

/-- Claim C1 (amended): a source row whose content is empty and whose title
is empty or absent contributes exactly one chunk, the two-character
separator document `"\n\n"`, tagged with the row's id. -/
theorem empty_row_one_chunk (i : Int) (t : Option (List Char))
    (ht : t.getD [] = []) :
    main defaultConfig ⟨["ForumPost"], [⟨i, t, []⟩]⟩
      = ⟨none, [[⟨i, ['\n', '\n']⟩]], 1, 1, true, 1⟩ := by
  have hdoc : buildDocument t [] = ['\n', '\n'] := by
    unfold buildDocument
    rw [ht]
    rfl
  have hmain := main_cons defaultConfig ⟨["ForumPost"], [⟨i, t, []⟩]⟩ ⟨i, t, []⟩ []
    (List.Mem.head _) rfl
  rw [hmain]
  have hpr : processRows defaultConfig [⟨i, t, []⟩] ⟨⟨[], []⟩, 0, 0⟩
      = (⟨⟨[], [⟨i, ['\n', '\n']⟩]⟩, 1, 1⟩, none) := by
    unfold processRows
    rw [show (⟨i, t, []⟩ : ForumRow).title = t from rfl,
      show (⟨i, t, []⟩ : ForumRow).content = [] from rfl, hdoc]
    rfl
  rw [hpr]
  rfl

/-- Claim C1 witness: the amended statement at the concrete row
`(id = 1, title = NULL, content = "")`. -/
theorem empty_row_one_chunk_witness :
    (Option.getD (none : Option (List Char)) [] = [])
      ∧ main defaultConfig ⟨["ForumPost"], [⟨1, none, []⟩]⟩
          = ⟨none, [[⟨1, ['\n', '\n']⟩]], 1, 1, true, 1⟩ :=
  ⟨rfl, empty_row_one_chunk 1 none rfl⟩

/-- The end-to-end scenario database of claim C8: one row
`(id = 1, title = "Hi", content = "A" * 1200)`. -/
def db8 : Database := ⟨["ForumPost"], [⟨1, some ['H', 'i'], List.replicate 1200 'A'⟩]⟩

/-- The combined document of claim C8: `"Hi" ++ "\n\n" ++ "A" * 1200`,
of length 1204. -/
def doc8 : List Char := buildDocument (some ['H', 'i']) (List.replicate 1200 'A')

/-- Claim C8 counterexample: in the end-to-end scenario the produced chunk
texts are not the segments `[0, 500)`, `[450, 950)`, `[900, 1200)` of the
combined document — the document has length 1204, so the third chunk runs
to position 1204, not 1200. -/
theorem endtoend_scenario_counterexample :
    (main defaultConfig db8).upserts.flatten.map ChunkDoc.text
      ≠ [doc8.take 500, (doc8.drop 450).take 500, (doc8.drop 900).take 300] := by
  decide

/-- Claim C8 (amended): the end-to-end scenario produces exactly 3 chunks,
covering positions `[0, 500)`, `[450, 950)` and `[900, 1204)` of the
combined 1204-character document, all tagged with source id 1, delivered in
a single upsert call of 3 elements. -/
theorem endtoend_scenario_amended :
    main defaultConfig db8
      = ⟨none,
         [[⟨1, doc8.take 500⟩, ⟨1, (doc8.drop 450).take 500⟩, ⟨1, doc8.drop 900⟩]],
         1, 3, true, 1⟩ := by
  decide

end IceCrawl
